import Mathlib

/-!
Verification of the Aviation_Data_Pipeline cleaning pipeline
(`src/cleaning_pipeline.py`) against its natural-language specification.

The pipeline is shallowly embedded: a pandas `DataFrame` becomes a
column-major association list `Table` of column names to cell lists, a
cell (`Val`) is a finite numeric value, a missing marker (NaN/NA/NaT),
a string, a boolean, or a calendar date, and each stage of the script
becomes a Lean function.  Floating-point numbers are modelled by `ℚ`
(every value manipulated by the script is small and exact); fallible
pandas operations (`astype` on missing values) return `Except`.
-/

namespace AirlinePipeline

/-! ## Character-level helpers for `to_snake` (source lines 25-30)

Python string primitives used by `to_snake` are modelled on `List Char`:
`str.strip`, the three separator `str.replace` calls, `str.isalnum`
(ASCII fragment), the single-pass `str.replace("__","_")`, `str.lower`,
and the no-argument `str.split`. -/

/-- Model of Python `str.strip`: drop leading and trailing whitespace. -/
def stripL (l : List Char) : List Char :=
  ((l.dropWhile Char.isWhitespace).reverse.dropWhile Char.isWhitespace).reverse

/-- Model of `s.replace("/", " ").replace("-", " ").replace(".", " ")`,
character by character. -/
def sepSp (c : Char) : Char :=
  if c = '/' then ' ' else if c = '-' then ' ' else if c = '.' then ' ' else c

/-- Model of `"".join(ch if ch.isalnum() or ch == " " else "_" for ch in s)`. -/
def keepAl (c : Char) : Char :=
  if c.isAlphanum || c = ' ' then c else '_'

/-- Model of the single left-to-right pass of `s.replace("__", "_")`:
each non-overlapping occurrence of two underscores becomes one. -/
def collUU : List Char → List Char
  | [] => []
  | [c] => [c]
  | c :: d :: rest =>
    if c = '_' ∧ d = '_' then '_' :: collUU rest
    else c :: collUU (d :: rest)

/-- Whether a character list contains two adjacent underscores. -/
def hasUU : List Char → Bool
  | [] => false
  | [_] => false
  | c :: d :: rest => (c = '_' && d = '_') || hasUU (d :: rest)

/-- Accumulator worker for `splitWsL`; `acc` holds the current word,
reversed. -/
def splitWsAux : List Char → List Char → List (List Char)
  | [], acc => if acc = [] then [] else [acc.reverse]
  | c :: rest, acc =>
    if c.isWhitespace then
      if acc = [] then splitWsAux rest [] else acc.reverse :: splitWsAux rest []
    else splitWsAux rest (c :: acc)

/-- Model of Python `str.split()` with no argument: split on whitespace
runs, discarding empty fragments. -/
def splitWsL (l : List Char) : List (List Char) :=
  splitWsAux l []

/-- Model of `"_".join(parts)`. -/
def joinUnd : List (List Char) → List Char
  | [] => []
  | [p] => p
  | p :: ps => p ++ '_' :: joinUnd ps

/-- Character-list version of `to_snake` (source lines 25-30): strip,
replace separators with spaces, keep alphanumerics and spaces and turn
everything else into underscores, collapse underscore pairs once,
lowercase, split on whitespace, join with underscores. -/
def toSnakeL (l : List Char) : List Char :=
  joinUnd (splitWsL ((collUU (((stripL l).map sepSp).map keepAl)).map Char.toLower))

/-- `to_snake` from the source: convert a column name to snake_case. -/
def to_snake (s : String) : String :=
  String.mk (toSnakeL s.data)

/-- Whether a string contains two adjacent underscores. -/
def hasDoubleUnderscore (s : String) : Bool :=
  hasUU s.data

/-! ## Data model: cells and tables -/

/-- A cell of the DataFrame: a finite numeric value (floats are modelled
by `ℚ`), the missing marker (NaN / pd.NA / NaT), a string, a boolean, or
a calendar date (as produced by `pd.to_datetime`). -/
inductive Val where
  | num (q : ℚ)
  | nan
  | str (s : String)
  | bool (b : Bool)
  | date (y m d : ℤ)
  deriving DecidableEq

/-- A DataFrame, column-major: column names paired with cell lists, in
column order. -/
abbrev Table : Type := List (String × List Val)

/-- Look a column up by name (first match, like `df[c]` with unique
column names). -/
def getCol (t : Table) (c : String) : Option (List Val) :=
  match t with
  | [] => none
  | p :: rest => if p.1 = c then some p.2 else getCol rest c

/-- Model of `c in df.columns`. -/
def hasCol (t : Table) (c : String) : Bool :=
  (getCol t c).isSome

/-- The cells of a column, defaulting to the empty list (only used under
a `hasCol` guard, as in the source). -/
def colD (t : Table) (c : String) : List Val :=
  (getCol t c).getD []

/-- Model of `df[c] = v`: overwrite the column in place if it exists,
otherwise append it as the last column. -/
def setCol (t : Table) (c : String) (v : List Val) : Table :=
  if hasCol t c then t.map (fun p => if p.1 = c then (c, v) else p)
  else t ++ [(c, v)]

/-- Model of `len(df)`: the number of rows, read off the first column. -/
def nrows (t : Table) : Nat :=
  match t with
  | [] => 0
  | p :: _ => p.2.length

/-- Well-formedness: every column holds exactly `n` cells. -/
def wf (t : Table) (n : Nat) : Prop :=
  ∀ p ∈ t, (p.2 : List Val).length = n

/-! ## SafeRatio (`safe_div`, source lines 32-37) -/

/-- Model of `.astype(float)` on a cell: a finite number maps to itself,
a boolean to 0/1, and the missing marker to NaN (`none`).  The pipeline
only ever applies it to numeric columns. -/
def astypeFloatCell (v : Val) : Option ℚ :=
  match v with
  | Val.num q => some q
  | Val.bool b => some (if b then 1 else 0)
  | _ => none

/-- One position of `np.where(den == 0, np.nan, num / den)` after both
operands were coerced with `.astype(float)`: a zero denominator gives
NaN; a NaN denominator fails the `== 0` test, and `num / NaN` is NaN;
otherwise the quotient, with NaN propagating from the numerator. -/
def safeDivCell (a b : Val) : Val :=
  match astypeFloatCell b with
  | none => Val.nan
  | some q =>
    if q = 0 then Val.nan
    else
      match astypeFloatCell a with
      | none => Val.nan
      | some p => Val.num (p / q)

/-- `safe_div` from the source: elementwise safe division of two columns. -/
def safe_div (num den : List Val) : List Val :=
  List.zipWith safeDivCell num den

/-! ## TypeCoercer (source lines 55-73) -/

/-- The count-like columns from the source (line 55). -/
def count_cols : List String :=
  ["arr_flights", "arr_del15", "carrier_ct", "weather_ct", "nas_ct",
   "security_ct", "late_aircraft_ct", "arr_cancelled", "arr_diverted"]

/-- The delay-minute columns from the source (line 59). -/
def delay_min_cols : List String :=
  ["arr_delay", "carrier_delay", "weather_delay", "nas_delay",
   "security_delay", "late_aircraft_delay"]

/-- Numeric value of a list of decimal digit characters. -/
def digitsNat (l : List Char) : Nat :=
  l.foldl (fun a c => 10 * a + (c.toNat - 48)) 0

/-- Parse an unsigned decimal literal `digits [ "." digits ]` with at
least one digit. -/
def parseUnsigned (l : List Char) : Option ℚ :=
  let intPart := l.takeWhile Char.isDigit
  let rest := l.dropWhile Char.isDigit
  match rest with
  | [] => if intPart = [] then none else some (digitsNat intPart : ℚ)
  | '.' :: frac =>
    if frac.all Char.isDigit ∧ ¬(intPart = [] ∧ frac = []) then
      some ((digitsNat intPart : ℚ) + (digitsNat frac : ℚ) / (10 ^ frac.length))
    else none
  | _ => none

/-- Model of the numeric parsing performed by `pd.to_numeric` on a
string: optional sign, then an unsigned decimal literal, with
surrounding whitespace tolerated. -/
def parseNumStr (s : String) : Option ℚ :=
  match stripL s.data with
  | '-' :: r => (parseUnsigned r).map (fun q => -q)
  | '+' :: r => parseUnsigned r
  | l => parseUnsigned l

/-- Model of `pd.to_numeric(v, errors="coerce")` on one cell: numbers
stay, booleans become 0/1, strings are parsed, everything unparseable
or missing becomes NaN (`none`). -/
def parseCell (v : Val) : Option ℚ :=
  match v with
  | Val.num q => some q
  | Val.bool b => some (if b then 1 else 0)
  | Val.str s => parseNumStr s
  | _ => none

/-- One cell of `pd.to_numeric(col, errors="coerce").fillna(0)`. -/
def coerceCnt (v : Val) : Val :=
  Val.num ((parseCell v).getD 0)

/-- Source lines 66-68: coerce every present count/delay column to
numeric and fill missing values with zero. -/
def coerceCounts (t : Table) : Table :=
  (count_cols ++ delay_min_cols).foldl
    (fun a c => if hasCol a c then setCol a c ((colD a c).map coerceCnt) else a) t

/-- One cell of `pd.to_numeric(col, errors="coerce").astype("Int64")`:
unparseable values become pd.NA, integral values stay, and a
non-integral float makes `astype("Int64")` raise. -/
def coerceYMCell (v : Val) : Except String Val :=
  match parseCell v with
  | none => Except.ok Val.nan
  | some q =>
    if q.den = 1 then Except.ok (Val.num q)
    else Except.error "cannot safely cast non-equivalent float64 to Int64"

/-- `pd.to_numeric(col, errors="coerce").astype("Int64")` on a whole
column. -/
def coerceInt64Col : List Val → Except String (List Val)
  | [] => Except.ok []
  | v :: rest => do
    let w ← coerceYMCell v
    let ws ← coerceInt64Col rest
    pure (w :: ws)

/-- One iteration of the loop at source lines 71-73. -/
def coerceYMOne (t : Table) (c : String) : Except String Table :=
  if hasCol t c then do
    let col ← coerceInt64Col (colD t c)
    pure (setCol t c col)
  else pure t

/-- Source lines 71-73: coerce `year` and `month` (when present) to the
nullable Int64 type. -/
def coerceYM (t : Table) : Except String Table := do
  let t1 ← coerceYMOne t "year"
  coerceYMOne t1 "month"

/-- The whole type-coercion stage (source lines 55-73). -/
def typeCoerce (t : Table) : Except String Table :=
  coerceYM (coerceCounts t)

/-! ## KpiDeriver (source lines 80-111) -/

/-- Model of `.astype("int")` on one cell of a nullable Int64 column:
an integer-valued number is kept, the missing marker pd.NA makes the
cast raise. -/
def astypeIntCell (v : Val) : Except String ℤ :=
  match v with
  | Val.num q => Except.ok (Rat.floor q)
  | _ => Except.error "cannot convert non-finite values (NA or inf) to integer"

/-- Model of `col.astype("int")` on a whole column. -/
def astypeIntCol : List Val → Except String (List ℤ)
  | [] => Except.ok []
  | v :: rest => do
    let i ← astypeIntCell v
    let is ← astypeIntCol rest
    pure (i :: is)

/-- Model of `pd.to_datetime(str(y) + "-" + str(m) + "-01",
errors="coerce")` for one row: a month outside 1..12 or a year outside
the pandas `Timestamp` range yields NaT. -/
def mkYM (y m : ℤ) : Val :=
  if 1 ≤ m ∧ m ≤ 12 ∧ 1677 ≤ y ∧ y ≤ 2262 then Val.date y m 1 else Val.nan

/-- Model of `.dt.strftime("%Y-%m")` on one cell: NaT formats to NaN. -/
def fmtYMKey (v : Val) : Val :=
  match v with
  | Val.date y m _ =>
    Val.str (toString y ++ "-" ++ (if m < 10 then "0" ++ toString m else toString m))
  | _ => Val.nan

/-- Source lines 80-86: when `year` and `month` are both present, build
the `year_month` date column via `astype("int")` (which raises on
missing values) and derive the `year_month_key` string column. -/
def rule_year_month (t : Table) : Except String Table :=
  if hasCol t "year" && hasCol t "month" then do
    let ys ← astypeIntCol (colD t "year")
    let ms ← astypeIntCol (colD t "month")
    let t1 := setCol t "year_month" (List.zipWith mkYM ys ms)
    pure (setCol t1 "year_month_key" ((colD t1 "year_month").map fmtYMKey))
  else pure t

/-- Source lines 89-90: `delayed_rate = safe_div(arr_del15, arr_flights)`. -/
def rule_delayed_rate (t : Table) : Table :=
  if hasCol t "arr_del15" && hasCol t "arr_flights" then
    setCol t "delayed_rate" (safe_div (colD t "arr_del15") (colD t "arr_flights"))
  else t

/-- One cell of elementwise column addition (`df[a] + df[b]`): numbers
add, a missing operand gives a missing result. -/
def addCell (a b : Val) : Val :=
  match a, b with
  | Val.num p, Val.num q => Val.num (p + q)
  | _, _ => Val.nan

/-- Source lines 93-95: `cancellation_rate = safe_div(arr_cancelled,
arr_flights + arr_cancelled + arr_diverted)`. -/
def rule_cancellation_rate (t : Table) : Table :=
  if hasCol t "arr_flights" && hasCol t "arr_cancelled" && hasCol t "arr_diverted" then
    setCol t "cancellation_rate"
      (safe_div (colD t "arr_cancelled")
        (List.zipWith addCell
          (List.zipWith addCell (colD t "arr_flights") (colD t "arr_cancelled"))
          (colD t "arr_diverted")))
  else t

/-- Source lines 98-99: `avg_delay_min_per_delayed_flight =
safe_div(arr_delay, arr_del15)`. -/
def rule_avg_delay (t : Table) : Table :=
  if hasCol t "arr_delay" && hasCol t "arr_del15" then
    setCol t "avg_delay_min_per_delayed_flight"
      (safe_div (colD t "arr_delay") (colD t "arr_del15"))
  else t

/-- The five delay causes iterated over at source lines 102 and 108. -/
def causes : List String :=
  ["carrier", "weather", "nas", "security", "late_aircraft"]

/-- Source lines 102-105: one count-based cause share. -/
def rule_share_ct (t : Table) (cause : String) : Table :=
  if hasCol t "arr_del15" && hasCol t (cause ++ "_ct") then
    setCol t (cause ++ "_cause_share_ct")
      (safe_div (colD t (cause ++ "_ct")) (colD t "arr_del15"))
  else t

/-- Source lines 108-111: one minute-based cause share. -/
def rule_share_min (t : Table) (cause : String) : Table :=
  if hasCol t "arr_delay" && hasCol t (cause ++ "_delay") then
    setCol t (cause ++ "_cause_share_min")
      (safe_div (colD t (cause ++ "_delay")) (colD t "arr_delay"))
  else t

/-- The whole KPI-derivation stage (source lines 80-111), in source
order. -/
def kpiPass (t : Table) : Except String Table := do
  let t1 ← rule_year_month t
  let t2 := rule_delayed_rate t1
  let t3 := rule_cancellation_rate t2
  let t4 := rule_avg_delay t3
  let t5 := causes.foldl rule_share_ct t4
  pure (causes.foldl rule_share_min t5)

/-! ## QualityChecker (source lines 118-123) -/

/-- The columns required by the quality check (source line 119). -/
def quality_req : List String :=
  ["carrier_ct", "weather_ct", "nas_ct", "security_ct", "late_aircraft_ct", "arr_del15"]

/-- One summand of `df[cause_cols].sum(axis=1)`: missing values are
skipped (counted as zero), as with pandas `skipna` summation. -/
def cellSkipNa (v : Val) : ℚ :=
  (astypeFloatCell v).getD 0

/-- Row `i` of the row-wise sum of the five cause-count columns
(source line 121). -/
def causeSumAt (t : Table) (i : Nat) : ℚ :=
  (["carrier_ct", "weather_ct", "nas_ct", "security_ct", "late_aircraft_ct"].map
    (fun c => cellSkipNa ((colD t c).getD i Val.nan))).sum

/-- One cell of `cause_sum > df["arr_del15"]`: a comparison against a
missing value is `False`, as in pandas. -/
def gtCell (a : ℚ) (v : Val) : Bool :=
  match astypeFloatCell v with
  | some q => decide (q < a)
  | none => false

/-- The quality-check stage (source lines 118-123): when all six
required columns are present, add the boolean flag column and report
the number of flagged rows; otherwise leave the table alone and report
nothing. -/
def qualityPass (t : Table) : Table × Option Nat :=
  if quality_req.all (fun c => hasCol t c) then
    let flags := (List.range (nrows t)).map
      (fun i => gtCell (causeSumAt t i) ((colD t "arr_del15").getD i Val.nan))
    (setCol t "cause_counts_exceed_delayed_flag" (flags.map Val.bool),
     some (flags.count true))
  else (t, none)

/-! ## ArtifactWriter (source lines 130-142)

`df.sample(k, random_state=42)` draws `k` distinct row positions
without replacement, deterministically from the integer seed.  The
underlying numpy generator is modelled by a linear congruential
generator driving a draw-without-replacement loop: which rows are
picked is irrelevant to every claim, but the model keeps the essential
contract — a seed-determined selection of `k` distinct valid row
indices. -/

/-- One step of the pseudo-random generator modelling the seeded numpy
generator. -/
def lcg (x : Nat) : Nat :=
  (1664525 * x + 1013904223) % 4294967296

/-- Draw `fuel` elements from `pool` without replacement, the position
of each draw supplied by the generator state. -/
def drawN : Nat → Nat → List Nat → List Nat
  | 0, _, _ => []
  | _, _, [] => []
  | fuel + 1, state, pool =>
    pool.getD (lcg state % pool.length) 0 ::
      drawN fuel (lcg state) (pool.eraseIdx (lcg state % pool.length))

/-- The `k` row positions selected by `df.sample(k, random_state=seed)`
from a table of `n` rows. -/
def sampleIdx (seed n k : Nat) : List Nat :=
  (drawN n seed (List.range n)).take k

/-- Model of `df.sample(k, random_state=seed)`: every column restricted
to the selected row positions. -/
def sampleTable (seed : Nat) (t : Table) (k : Nat) : Table :=
  t.map (fun p => (p.1, (sampleIdx seed (nrows t) k).filterMap (fun i => p.2[i]?)))

/-- Source line 133: `df.sample(min(len(df), 500), random_state=42)`.
The `random_state` argument is the explicit seed; were it absent, the
sampler would consume the ambient generator state `env` instead. -/
def sampleArtifact (env : Nat) (t : Table) : Table :=
  sampleTable ((some 42).getD env) t (min (nrows t) 500)

/-- One row of the generated data dictionary. -/
structure DictRow where
  column : String
  dtype : String
  null_pct : ℚ
  exampleVal : Option Val
  deriving DecidableEq

/-- Coarse model of the pandas dtype label of a column (only its
determinism matters to the claims). -/
def dtypeLabel (col : List Val) : String :=
  if col.all (fun v => match v with | Val.bool _ => true | _ => false) then "bool"
  else if col.all (fun v => match v with | Val.num q => q.den = 1 | _ => false) then "int64"
  else if col.all (fun v => match v with | Val.num _ => true | Val.nan => true | _ => false) then "float64"
  else if col.all (fun v => match v with | Val.date _ _ _ => true | Val.nan => true | _ => false) then "datetime64"
  else "object"

/-- Model of Python `round(x, 2)`: round to two decimal places, ties to
even. -/
def round2 (x : ℚ) : ℚ :=
  let y := x * 100
  let f := Rat.floor y
  let r := y - (f : ℚ)
  if r < 1 / 2 then (f : ℚ) / 100
  else if 1 / 2 < r then ((f : ℚ) + 1) / 100
  else if Even f then (f : ℚ) / 100 else ((f : ℚ) + 1) / 100

/-- Whether a cell is the missing marker (`isna`). -/
def isNa (v : Val) : Bool :=
  match v with
  | Val.nan => true
  | _ => false

/-- `round(df[c].isna().mean()*100, 2)` for one column (0 on an empty
column, where pandas would give NaN — immaterial to the claims). -/
def nullPct (col : List Val) : ℚ :=
  if col.length = 0 then 0
  else round2 (100 * ((col.countP isNa : ℚ) / (col.length : ℚ)))

/-- `df[c].dropna().iloc[0] if df[c].notna().any() else None`. -/
def firstExample (col : List Val) : Option Val :=
  (col.filter (fun v => !isNa v)).head?

/-- Stable insertion into a list of dictionary rows ordered by column
name. -/
def insertByName (r : DictRow) : List DictRow → List DictRow
  | [] => [r]
  | x :: xs => if x.column ≤ r.column then x :: insertByName r xs else r :: x :: xs

/-- Sort dictionary rows by column name (`sort_values("column")`). -/
def sortByName (rs : List DictRow) : List DictRow :=
  rs.foldl (fun acc r => insertByName r acc) []

/-- Source lines 136-141: the generated data dictionary, one row per
column, sorted by column name. -/
def dataDict (t : Table) : List DictRow :=
  sortByName (t.map (fun p =>
    { column := p.1, dtype := dtypeLabel p.2, null_pct := nullPct p.2,
      exampleVal := firstExample p.2 }))

/-! ## The whole pipeline -/

/-- Source line 48: normalize every column name with `to_snake`. -/
def normalizeCols (t : Table) : Table :=
  t.map (fun p => (to_snake p.1, p.2))

/-- The pipeline from the normalized raw table to the three written
artifacts (cleaned table, sample, data dictionary).  `env` is the
ambient random-generator state a seedless `df.sample` would consume;
the source fixes `random_state=42`, so `env` is never read. -/
def runPipeline (env : Nat) (raw : Table) : Except String (Table × Table × List DictRow) := do
  let t0 := normalizeCols raw
  let t1 ← typeCoerce t0
  let t2 ← kpiPass t1
  let t3 := (qualityPass t2).1
  pure (t3, sampleArtifact env t3, dataDict t3)

/-- The character set `to_snake` can emit into a token: an underscore or
a non-uppercase alphanumeric character. -/
def outCh (c : Char) : Prop :=
  c = '_' ∨ (c.isAlphanum = true ∧ c.isUpper = false)

/-- The names of all columns the KPI-derivation and quality-check
stages write. -/
def derivedNames : List String :=
  ["year_month", "year_month_key", "delayed_rate", "cancellation_rate",
   "avg_delay_min_per_delayed_flight"] ++
  causes.map (fun c => c ++ "_cause_share_ct") ++
  causes.map (fun c => c ++ "_cause_share_min") ++
  ["cause_counts_exceed_delayed_flag"]

/-! # Theorems -/

/-! ## Generic list helpers -/

theorem map_eq_self_of {α : Type} {f : α → α} (l : List α) (h : ∀ x ∈ l, f x = x) :
    l.map f = l := by
  induction l with
  | nil => rfl
  | cons a as ih =>
    rw [List.map_cons, h a (List.mem_cons_self a as),
      ih (fun x hx => h x (List.mem_cons_of_mem a hx))]

theorem dropWhile_eq_self_of {α : Type} {p : α → Bool} (l : List α)
    (h : ∀ x ∈ l, p x = false) : l.dropWhile p = l := by
  cases l with
  | nil => rfl
  | cons a as =>
    rw [List.dropWhile_cons, h a (List.mem_cons_self a as)]
    simp

/-! ## Character-class facts used by the `to_snake` analysis -/

theorem isUpper_iff (c : Char) : c.isUpper = true ↔ 65 ≤ c.toNat ∧ c.toNat ≤ 90 := by
  simp only [Char.isUpper, Bool.and_eq_true, decide_eq_true_eq, ge_iff_le,
    UInt32.le_def, BitVec.le_def]
  exact Iff.rfl

theorem isLower_iff (c : Char) : c.isLower = true ↔ 97 ≤ c.toNat ∧ c.toNat ≤ 122 := by
  simp only [Char.isLower, Bool.and_eq_true, decide_eq_true_eq, ge_iff_le,
    UInt32.le_def, BitVec.le_def]
  exact Iff.rfl

theorem toNat_ofNat_valid (m : Nat) (h : m.isValidChar) : (Char.ofNat m).toNat = m := by
  unfold Char.ofNat
  rw [dif_pos h]
  rfl

theorem toLower_eq_self (c : Char) (h : c.isUpper = false) : Char.toLower c = c := by
  rw [Char.toLower]
  have h2 : ¬(c.toNat ≥ 65 ∧ c.toNat ≤ 90) := by
    intro hc
    have := (isUpper_iff c).mpr ⟨hc.1, hc.2⟩
    rw [h] at this
    cases this
  simp [h2]

theorem toLower_alnum (c : Char) (h : c.isAlphanum = true) :
    (Char.toLower c).isAlphanum = true ∧ (Char.toLower c).isUpper = false := by
  cases hU : c.isUpper with
  | false =>
    rw [toLower_eq_self c hU]
    exact ⟨h, hU⟩
  | true =>
    have hn := (isUpper_iff c).mp hU
    have hval : (c.toNat + 32).isValidChar := by
      left; omega
    have heq : Char.toLower c = Char.ofNat (c.toNat + 32) := by
      rw [Char.toLower]
      rw [if_pos ⟨by omega, by omega⟩]
    have htn : (Char.toLower c).toNat = c.toNat + 32 := by
      rw [heq]; exact toNat_ofNat_valid _ hval
    constructor
    · have hlow : (Char.toLower c).isLower = true := by
        rw [isLower_iff, htn]; omega
      simp [Char.isAlphanum, Char.isAlpha, hlow]
    · rw [Bool.eq_false_iff]
      intro hu
      rw [isUpper_iff, htn] at hu
      omega

theorem not_ws_of_alnum (c : Char) (h : c.isAlphanum = true) : c.isWhitespace = false := by
  rw [Bool.eq_false_iff]
  intro hw
  simp only [Char.isWhitespace, Bool.or_eq_true, decide_eq_true_eq] at hw
  rcases hw with ((h1 | h1) | h1) | h1 <;> subst h1 <;> exact absurd h (by decide)

theorem sepSp_alnum (c : Char) (h : c.isAlphanum = true) : sepSp c = c := by
  unfold sepSp
  rcases Decidable.eq_or_ne c '/' with he | he
  · subst he; exact absurd h (by decide)
  rcases Decidable.eq_or_ne c '-' with he2 | he2
  · subst he2; exact absurd h (by decide)
  rcases Decidable.eq_or_ne c '.' with he3 | he3
  · subst he3; exact absurd h (by decide)
  simp [he, he2, he3]

theorem outCh_not_ws (c : Char) (h : outCh c) : c.isWhitespace = false := by
  rcases h with h | h
  · subst h; decide
  · exact not_ws_of_alnum c h.1

theorem sepSp_outCh (c : Char) (h : outCh c) : sepSp c = c := by
  rcases h with h | h
  · subst h; decide
  · exact sepSp_alnum c h.1

theorem keepAl_outCh (c : Char) (h : outCh c) : keepAl c = c := by
  rcases h with h | h
  · subst h; decide
  · unfold keepAl
    simp [h.1]

theorem toLower_outCh (c : Char) (h : outCh c) : Char.toLower c = c := by
  rcases h with h | h
  · subst h; decide
  · exact toLower_eq_self c h.2

/-! ## Behaviour of the `to_snake` pieces -/

theorem collUU_eq_self (l : List Char) (h : hasUU l = false) : collUU l = l := by
  induction l using collUU.induct with
  | case1 => rfl
  | case2 c => rfl
  | case3 c d rest hcd ih =>
    exfalso
    simp only [hasUU, Bool.or_eq_false_iff, Bool.and_eq_false_iff,
      decide_eq_false_iff_not] at h
    rcases h.1 with h1 | h1
    · exact h1 hcd.1
    · exact h1 hcd.2
  | case4 c d rest hcd ih =>
    rw [collUU, if_neg hcd]
    simp only [hasUU, Bool.or_eq_false_iff] at h
    rw [ih h.2]

theorem mem_collUU (l : List Char) (c : Char) (h : c ∈ collUU l) : c = '_' ∨ c ∈ l := by
  induction l using collUU.induct with
  | case1 => simp [collUU] at h
  | case2 d => rw [collUU] at h; right; exact h
  | case3 a d rest had ih =>
    rw [collUU, if_pos had] at h
    rcases List.mem_cons.mp h with h | h
    · left; exact h
    · rcases ih h with h | h
      · left; exact h
      · right; simp [h]
  | case4 a d rest had ih =>
    rw [collUU, if_neg had] at h
    rcases List.mem_cons.mp h with h | h
    · right; simp [h]
    · rcases ih h with h2 | h2
      · left; exact h2
      · right; simp [List.mem_cons.mp h2]

theorem stripL_eq_self (l : List Char) (h : ∀ c ∈ l, c.isWhitespace = false) :
    stripL l = l := by
  unfold stripL
  rw [dropWhile_eq_self_of l h]
  rw [dropWhile_eq_self_of l.reverse (fun c hc => h c (List.mem_reverse.mp hc))]
  exact List.reverse_reverse l

theorem splitWsAux_no_ws (l : List Char) (h : ∀ c ∈ l, c.isWhitespace = false) :
    ∀ acc : List Char,
      splitWsAux l acc = if acc = [] ∧ l = [] then [] else [acc.reverse ++ l] := by
  induction l with
  | nil =>
    intro acc
    cases ha : decide (acc = []) with
    | true =>
      have ha2 := of_decide_eq_true ha
      rw [splitWsAux, if_pos ha2, if_pos ⟨ha2, rfl⟩]
    | false =>
      have ha2 := of_decide_eq_false ha
      rw [splitWsAux, if_neg ha2, if_neg (fun hc => ha2 hc.1)]
      simp
  | cons c rest ih =>
    intro acc
    rw [splitWsAux]
    rw [if_neg (by intro hcw; rw [h c (List.mem_cons_self c rest)] at hcw; cases hcw)]
    rw [ih (fun d hd => h d (List.mem_cons_of_mem c hd)) (c :: acc)]
    rw [if_neg (fun hc => List.cons_ne_nil c acc hc.1)]
    rw [if_neg (fun hc => List.cons_ne_nil c rest hc.2)]
    simp

theorem splitWsL_no_ws (l : List Char) (h : ∀ c ∈ l, c.isWhitespace = false) :
    splitWsL l = if l = [] then [] else [l] := by
  unfold splitWsL
  rw [splitWsAux_no_ws l h []]
  simp

theorem mem_splitWsAux (l : List Char) :
    ∀ acc p, (∀ c ∈ acc, c.isWhitespace = false) → p ∈ splitWsAux l acc →
      ∀ c ∈ p, (c ∈ l ∨ c ∈ acc) ∧ c.isWhitespace = false := by
  induction l with
  | nil =>
    intro acc p hacc hp c hc
    rw [splitWsAux] at hp
    rcases ha : decide (acc = []) with ha1 | ha1
    · rw [if_neg (of_decide_eq_false ha)] at hp
      rcases List.mem_singleton.mp hp with hp1
      subst hp1
      have hca := List.mem_reverse.mp hc
      exact ⟨Or.inr hca, hacc c hca⟩
    · rw [if_pos (of_decide_eq_true ha)] at hp
      cases hp
  | cons a rest ih =>
    intro acc p hacc hp c hc
    rw [splitWsAux] at hp
    cases hws : a.isWhitespace with
    | true =>
      rw [if_pos hws] at hp
      rcases ha : decide (acc = []) with ha1 | ha1
      · rw [if_neg (of_decide_eq_false ha)] at hp
        rcases List.mem_cons.mp hp with hp1 | hp1
        · subst hp1
          have hca := List.mem_reverse.mp hc
          exact ⟨Or.inr hca, hacc c hca⟩
        · have := ih [] p (by intro d hd; cases hd) hp1 c hc
          rcases this.1 with h1 | h1
          · exact ⟨Or.inl (List.mem_cons_of_mem a h1), this.2⟩
          · cases h1
      · rw [if_pos (of_decide_eq_true ha)] at hp
        have := ih [] p (by intro d hd; cases hd) hp c hc
        rcases this.1 with h1 | h1
        · exact ⟨Or.inl (List.mem_cons_of_mem a h1), this.2⟩
        · cases h1
    | false =>
      rw [if_neg (by rw [hws]; exact Bool.false_ne_true)] at hp
      have hacc2 : ∀ d ∈ a :: acc, d.isWhitespace = false := by
        intro d hd
        rcases List.mem_cons.mp hd with hd1 | hd1
        · subst hd1; exact hws
        · exact hacc d hd1
      have := ih (a :: acc) p hacc2 hp c hc
      rcases this.1 with h1 | h1
      · exact ⟨Or.inl (List.mem_cons_of_mem a h1), this.2⟩
      · rcases List.mem_cons.mp h1 with h2 | h2
        · subst h2; exact ⟨Or.inl (List.mem_cons_self _ _), this.2⟩
        · exact ⟨Or.inr h2, this.2⟩

theorem mem_splitWsL (l : List Char) (p : List Char) (hp : p ∈ splitWsL l)
    (c : Char) (hc : c ∈ p) : c ∈ l ∧ c.isWhitespace = false := by
  have := mem_splitWsAux l [] p (by intro d hd; cases hd) hp c hc
  rcases this.1 with h1 | h1
  · exact ⟨h1, this.2⟩
  · cases h1

theorem mem_joinUnd (ps : List (List Char)) (c : Char) (h : c ∈ joinUnd ps) :
    c = '_' ∨ ∃ p ∈ ps, c ∈ p := by
  induction ps using joinUnd.induct with
  | case1 => simp [joinUnd] at h
  | case2 p =>
    rw [joinUnd] at h
    right; exact ⟨p, List.mem_singleton_self p, h⟩
  | case3 p ps hps ih =>
    cases ps with
    | nil => exact absurd rfl hps
    | cons q rest =>
      have h2 : c ∈ p ++ '_' :: joinUnd (q :: rest) := h
      rcases List.mem_append.mp h2 with h1 | h1
      · right; exact ⟨p, List.mem_cons_self _ _, h1⟩
      · rcases List.mem_cons.mp h1 with h2 | h2
        · left; exact h2
        · rcases ih h2 with h3 | ⟨r, hr, hcr⟩
          · left; exact h3
          · right; exact ⟨r, List.mem_cons_of_mem p hr, hcr⟩

/-- Every character emitted by `to_snake` is an underscore or a
non-uppercase alphanumeric character. -/
theorem outCh_toSnakeL (l : List Char) (c : Char) (h : c ∈ toSnakeL l) : outCh c := by
  unfold toSnakeL at h
  rcases mem_joinUnd _ c h with h1 | ⟨p, hp, hcp⟩
  · left; exact h1
  have hmem := mem_splitWsL _ p hp c hcp
  rcases List.mem_map.mp hmem.1 with ⟨x, hx, hlx⟩
  rcases mem_collUU _ x hx with hx1 | hx1
  · left
    rw [← hlx, hx1]
    decide
  rcases List.mem_map.mp hx1 with ⟨y, _, hky⟩
  have hkeep : x = '_' ∨ x.isAlphanum = true ∨ x = ' ' := by
    rw [← hky]
    unfold keepAl
    cases hb : (y.isAlphanum || decide (y = ' ')) with
    | false =>
      rw [if_neg Bool.false_ne_true]
      left; rfl
    | true =>
      rw [if_pos rfl]
      rcases Bool.or_eq_true_iff.mp hb with hy | hy
      · right; left; exact hy
      · right; right; exact of_decide_eq_true hy
  rcases hkeep with hk | hk | hk
  · left
    rw [← hlx, hk]
    decide
  · right
    rw [← hlx]
    exact toLower_alnum x hk
  · exfalso
    have hc : c = ' ' := by rw [← hlx, hk]; decide
    rw [hc] at hmem
    exact absurd hmem.2 (by decide)

/-- A `to_snake` output without adjacent underscores is a fixed point of
`toSnakeL`. -/
theorem toSnakeL_fixed (t : List Char) (hout : ∀ c ∈ t, outCh c)
    (huu : hasUU t = false) : toSnakeL t = t := by
  unfold toSnakeL
  have hws : ∀ c ∈ t, c.isWhitespace = false := fun c hc => outCh_not_ws c (hout c hc)
  rw [stripL_eq_self t hws]
  rw [map_eq_self_of t (fun c hc => sepSp_outCh c (hout c hc))]
  rw [map_eq_self_of t (fun c hc => keepAl_outCh c (hout c hc))]
  rw [collUU_eq_self t huu]
  rw [map_eq_self_of t (fun c hc => toLower_outCh c (hout c hc))]
  rw [splitWsL_no_ws t hws]
  cases ht : decide (t = []) with
  | false =>
    rw [if_neg (of_decide_eq_false ht)]
    rfl
  | true =>
    rw [if_pos (of_decide_eq_true ht), of_decide_eq_true ht]
    rfl

/-! ## Claim C3: NameNormalizer idempotence -/

/-- C3, counterexample: `to_snake` is not idempotent.  On `"a!!!b"` the
three consecutive special characters become three underscores, the
single `replace("__", "_")` pass leaves `"a__b"`, and a second
application collapses it further to `"a_b"`. -/
theorem to_snake_not_idempotent_cex :
    to_snake (to_snake "a!!!b") ≠ to_snake "a!!!b" := by
  intro h
  rw [show to_snake "a!!!b" = "a__b" from rfl, show to_snake "a__b" = "a_b" from rfl] at h
  exact absurd h (by decide)

/-- C3, amended: `to_snake` is idempotent on every string whose
normalized form contains no two adjacent underscores (equivalently, on
every input without runs of three or more consecutive characters that
normalize to underscores). -/
theorem to_snake_idempotent_of_no_double_underscore (s : String)
    (h : hasDoubleUnderscore (to_snake s) = false) :
    to_snake (to_snake s) = to_snake s := by
  have h3 := toSnakeL_fixed (toSnakeL s.data)
    (fun c hc => outCh_toSnakeL s.data c hc) h
  show String.mk (toSnakeL (toSnakeL s.data)) = String.mk (toSnakeL s.data)
  rw [h3]

/-- Witness for the amended C3 at the concrete input `"Arr Flights!"`. -/
theorem to_snake_idempotent_witness :
    hasDoubleUnderscore (to_snake "Arr Flights!") = false ∧
    to_snake (to_snake "Arr Flights!") = to_snake "Arr Flights!" :=
  ⟨rfl, to_snake_idempotent_of_no_double_underscore "Arr Flights!" rfl⟩

/-! ## Claim C1: SafeRatio -/

/-- C1: for equal-length numeric columns, `safe_div` yields the
undefined marker (NaN) at every position whose denominator is exactly
zero, and the true quotient at every position whose denominator is a
nonzero number; being a total function, it never raises a division
error. -/
theorem safe_div_correct (num den : List Val) (hlen : num.length = den.length)
    (i : Nat) :
    (den[i]? = some (Val.num 0) → (safe_div num den)[i]? = some Val.nan) ∧
    (∀ p q : ℚ, q ≠ 0 → num[i]? = some (Val.num p) → den[i]? = some (Val.num q) →
      (safe_div num den)[i]? = some (Val.num (p / q))) := by
  constructor
  · intro h0
    have hi : i < den.length := by
      by_contra hni
      rw [List.getElem?_eq_none (Nat.le_of_not_lt hni)] at h0
      cases h0
    have hin : i < num.length := by omega
    rw [safe_div, List.getElem?_zipWith, List.getElem?_eq_getElem hin, h0]
    simp [safeDivCell, astypeFloatCell]
  · intro p q hq hnp hdq
    rw [safe_div, List.getElem?_zipWith, hnp, hdq]
    simp [safeDivCell, astypeFloatCell, hq]

/-- Witness for C1 at concrete columns: denominator zero at position 0,
denominator 2 at position 1. -/
theorem safe_div_correct_witness :
    (safe_div [Val.num 1, Val.num 3] [Val.num 0, Val.num 2])[0]? = some Val.nan ∧
    (safe_div [Val.num 1, Val.num 3] [Val.num 0, Val.num 2])[1]? = some (Val.num (3 / 2)) :=
  ⟨(safe_div_correct [Val.num 1, Val.num 3] [Val.num 0, Val.num 2] rfl 0).1 rfl,
   (safe_div_correct [Val.num 1, Val.num 3] [Val.num 0, Val.num 2] rfl 1).2 3 2
     (by norm_num) rfl rfl⟩

/-! ## Table lemmas -/

theorem getCol_some_mem (t : Table) (c : String) (l : List Val)
    (h : getCol t c = some l) : ∃ p ∈ t, p.1 = c ∧ p.2 = l := by
  induction t with
  | nil => cases h
  | cons p rest ih =>
    rw [getCol] at h
    by_cases hp : p.1 = c
    · rw [if_pos hp] at h
      exact ⟨p, List.mem_cons_self _ _, hp, (Option.some_injective _ h).symm ▸ rfl⟩
    · rw [if_neg hp] at h
      rcases ih h with ⟨q, hq, hq1, hq2⟩
      exact ⟨q, List.mem_cons_of_mem p hq, hq1, hq2⟩

theorem colD_length (t : Table) (c : String) (n : Nat) (hwf : wf t n)
    (hc : hasCol t c = true) : (colD t c).length = n := by
  unfold hasCol at hc
  cases hg : getCol t c with
  | none => rw [hg] at hc; cases hc
  | some l =>
    rcases getCol_some_mem t c l hg with ⟨p, hp, _, hp2⟩
    unfold colD
    rw [hg, Option.getD_some, ← hp2]
    exact hwf p hp

theorem nrows_of_wf (t : Table) (n : Nat) (hwf : wf t n) (c : String)
    (hc : hasCol t c = true) : nrows t = n := by
  cases t with
  | nil => cases hc
  | cons p rest => exact hwf p (List.mem_cons_self _ _)

theorem getCol_setCol_self (t : Table) (c : String) (v : List Val) :
    getCol (setCol t c v) c = some v := by
  unfold setCol hasCol
  cases hg : getCol t c with
  | none =>
    rw [Option.isSome_none, if_neg Bool.false_ne_true]
    induction t with
    | nil => rw [List.nil_append, getCol, if_pos rfl]
    | cons p rest ih =>
      rw [getCol] at hg
      by_cases hp : p.1 = c
      · rw [if_pos hp] at hg
        cases hg
      · rw [if_neg hp] at hg
        rw [List.cons_append, getCol, if_neg hp]
        exact ih hg
  | some w =>
    rw [Option.isSome_some, if_pos rfl]
    induction t with
    | nil => cases hg
    | cons p rest ih =>
      rw [getCol] at hg
      by_cases hp : p.1 = c
      · rw [List.map_cons, if_pos hp, getCol, if_pos rfl]
      · rw [if_neg hp] at hg
        rw [List.map_cons, if_neg hp, getCol, if_neg hp]
        exact ih hg

theorem getCol_setCol_ne (t : Table) (c d : String) (v : List Val) (h : d ≠ c) :
    getCol (setCol t c v) d = getCol t d := by
  unfold setCol
  by_cases hb : hasCol t c = true
  · rw [if_pos hb]
    clear hb
    induction t with
    | nil => rfl
    | cons p rest ih =>
      rw [List.map_cons, getCol, getCol]
      by_cases hp : p.1 = c
      · have hcd : ¬c = d := fun hcd => h hcd.symm
        rw [if_pos hp, if_neg hcd, if_neg (hp ▸ hcd)]
        exact ih
      · rw [if_neg hp]
        by_cases hd : p.1 = d
        · rw [if_pos hd, if_pos hd]
        · rw [if_neg hd, if_neg hd]
          exact ih
  · rw [if_neg hb]
    clear hb
    induction t with
    | nil =>
      simp only [List.nil_append, getCol]
      rw [if_neg (fun hcd : c = d => h hcd.symm)]
    | cons p rest ih =>
      rw [List.cons_append, getCol, getCol]
      by_cases hd : p.1 = d
      · rw [if_pos hd, if_pos hd]
      · rw [if_neg hd, if_neg hd]
        exact ih

theorem hasCol_setCol_ne (t : Table) (c d : String) (v : List Val) (h : d ≠ c) :
    hasCol (setCol t c v) d = hasCol t d := by
  unfold hasCol
  rw [getCol_setCol_ne t c d v h]

theorem wf_setCol (t : Table) (c : String) (v : List Val) (n : Nat)
    (hwf : wf t n) (hv : v.length = n) : wf (setCol t c v) n := by
  unfold setCol
  by_cases hb : hasCol t c = true
  · rw [if_pos hb]
    intro p hp
    rcases List.mem_map.mp hp with ⟨q, hq, hq2⟩
    by_cases hqc : q.1 = c
    · rw [if_pos hqc] at hq2
      rw [← hq2]
      exact hv
    · rw [if_neg hqc] at hq2
      rw [← hq2]
      exact hwf q hq
  · rw [if_neg hb]
    intro p hp
    rcases List.mem_append.mp hp with hp1 | hp1
    · exact hwf p hp1
    · rw [List.mem_singleton.mp hp1]
      exact hv


/-! ## Rule-level lemmas: characterization, skipping, framing -/

theorem astypeIntCol_length (col : List Val) (l : List ℤ)
    (h : astypeIntCol col = Except.ok l) : l.length = col.length := by
  induction col generalizing l with
  | nil =>
    have h2 : (Except.ok [] : Except String (List ℤ)) = Except.ok l := h
    injection h2 with h3
    rw [← h3]
    rfl
  | cons v rest ih =>
    rw [astypeIntCol] at h
    cases hv : astypeIntCell v with
    | error e =>
      rw [hv] at h
      have h2 : (Except.error e : Except String (List ℤ)) = Except.ok l := h
      cases h2
    | ok i =>
      rw [hv] at h
      cases hr : astypeIntCol rest with
      | error e =>
        rw [hr] at h
        have h2 : (Except.error e : Except String (List ℤ)) = Except.ok l := h
        cases h2
      | ok is =>
        rw [hr] at h
        have h2 : (Except.ok (i :: is) : Except String (List ℤ)) = Except.ok l := h
        injection h2 with h3
        rw [← h3, List.length_cons, List.length_cons, ih is hr]

theorem rule_year_month_ok_inv (t t2 : Table)
    (h : rule_year_month t = Except.ok t2) :
    ((hasCol t "year" && hasCol t "month") = false ∧ t2 = t) ∨
    ((hasCol t "year" && hasCol t "month") = true ∧
      ∃ ys ms, astypeIntCol (colD t "year") = Except.ok ys ∧
        astypeIntCol (colD t "month") = Except.ok ms ∧
        t2 = setCol (setCol t "year_month" (List.zipWith mkYM ys ms)) "year_month_key"
          ((colD (setCol t "year_month" (List.zipWith mkYM ys ms)) "year_month").map fmtYMKey)) := by
  unfold rule_year_month at h
  cases hg : (hasCol t "year" && hasCol t "month") with
  | false =>
    rw [hg, if_neg Bool.false_ne_true] at h
    have h2 : (Except.ok t : Except String Table) = Except.ok t2 := h
    injection h2 with h3
    exact Or.inl ⟨rfl, h3.symm⟩
  | true =>
    rw [hg, if_pos rfl] at h
    refine Or.inr ⟨rfl, ?_⟩
    cases hys : astypeIntCol (colD t "year") with
    | error e =>
      rw [hys] at h
      have h2 : (Except.error e : Except String Table) = Except.ok t2 := h
      cases h2
    | ok ys =>
      rw [hys] at h
      cases hms : astypeIntCol (colD t "month") with
      | error e =>
        rw [hms] at h
        have h2 : (Except.error e : Except String Table) = Except.ok t2 := h
        cases h2
      | ok ms =>
        rw [hms] at h
        have h2 : Except.ok (setCol (setCol t "year_month" (List.zipWith mkYM ys ms))
            "year_month_key"
            ((colD (setCol t "year_month" (List.zipWith mkYM ys ms)) "year_month").map
              fmtYMKey)) = Except.ok t2 := h
        injection h2 with h3
        exact ⟨ys, ms, rfl, rfl, h3.symm⟩

theorem rule_year_month_skip (t : Table)
    (h : (hasCol t "year" && hasCol t "month") = false) :
    rule_year_month t = Except.ok t := by
  unfold rule_year_month
  rw [h, if_neg Bool.false_ne_true]
  rfl

theorem getCol_rule_year_month (t t2 : Table) (h : rule_year_month t = Except.ok t2)
    (d : String) (h1 : d ≠ "year_month") (h2 : d ≠ "year_month_key") :
    getCol t2 d = getCol t d := by
  rcases rule_year_month_ok_inv t t2 h with ⟨_, rfl⟩ | ⟨_, ys, ms, _, _, rfl⟩
  · rfl
  · rw [getCol_setCol_ne _ _ _ _ h2, getCol_setCol_ne _ _ _ _ h1]

theorem wf_rule_year_month (t t2 : Table) (n : Nat) (hwf : wf t n)
    (h : rule_year_month t = Except.ok t2) : wf t2 n := by
  rcases rule_year_month_ok_inv t t2 h with ⟨_, rfl⟩ | ⟨hg, ys, ms, hys, hms, rfl⟩
  · exact hwf
  · simp only [Bool.and_eq_true] at hg
    have hyl : ys.length = n := by
      rw [astypeIntCol_length _ _ hys, colD_length t _ n hwf hg.1]
    have hml : ms.length = n := by
      rw [astypeIntCol_length _ _ hms, colD_length t _ n hwf hg.2]
    have hzip : (List.zipWith mkYM ys ms).length = n := by
      rw [List.length_zipWith, hyl, hml, Nat.min_self]
    have hwf1 := wf_setCol t "year_month" (List.zipWith mkYM ys ms) n hwf hzip
    apply wf_setCol _ _ _ n hwf1
    unfold colD
    rw [getCol_setCol_self, Option.getD_some, List.length_map]
    exact hzip

theorem safe_div_length (a b : List Val) :
    (safe_div a b).length = min a.length b.length :=
  List.length_zipWith ..

theorem rule_delayed_rate_skip (t : Table)
    (h : (hasCol t "arr_del15" && hasCol t "arr_flights") = false) :
    rule_delayed_rate t = t := by
  unfold rule_delayed_rate
  rw [h, if_neg Bool.false_ne_true]

theorem getCol_rule_delayed_rate (t : Table) (d : String) (hd : d ≠ "delayed_rate") :
    getCol (rule_delayed_rate t) d = getCol t d := by
  unfold rule_delayed_rate
  cases hg : (hasCol t "arr_del15" && hasCol t "arr_flights") with
  | false => rw [if_neg Bool.false_ne_true]
  | true =>
    rw [if_pos rfl]
    exact getCol_setCol_ne _ _ _ _ hd

theorem wf_rule_delayed_rate (t : Table) (n : Nat) (hwf : wf t n) :
    wf (rule_delayed_rate t) n := by
  unfold rule_delayed_rate
  cases hg : (hasCol t "arr_del15" && hasCol t "arr_flights") with
  | false =>
    rw [if_neg Bool.false_ne_true]
    exact hwf
  | true =>
    rw [if_pos rfl]
    simp only [Bool.and_eq_true] at hg
    apply wf_setCol _ _ _ _ hwf
    rw [safe_div_length, colD_length t _ n hwf hg.1, colD_length t _ n hwf hg.2,
      Nat.min_self]

theorem rule_cancellation_rate_skip (t : Table)
    (h : (hasCol t "arr_flights" && hasCol t "arr_cancelled" &&
      hasCol t "arr_diverted") = false) :
    rule_cancellation_rate t = t := by
  unfold rule_cancellation_rate
  rw [h, if_neg Bool.false_ne_true]

theorem getCol_rule_cancellation_rate (t : Table) (d : String)
    (hd : d ≠ "cancellation_rate") :
    getCol (rule_cancellation_rate t) d = getCol t d := by
  unfold rule_cancellation_rate
  cases hg : (hasCol t "arr_flights" && hasCol t "arr_cancelled" &&
      hasCol t "arr_diverted") with
  | false => rw [if_neg Bool.false_ne_true]
  | true =>
    rw [if_pos rfl]
    exact getCol_setCol_ne _ _ _ _ hd

theorem wf_rule_cancellation_rate (t : Table) (n : Nat) (hwf : wf t n) :
    wf (rule_cancellation_rate t) n := by
  unfold rule_cancellation_rate
  cases hg : (hasCol t "arr_flights" && hasCol t "arr_cancelled" &&
      hasCol t "arr_diverted") with
  | false =>
    rw [if_neg Bool.false_ne_true]
    exact hwf
  | true =>
    rw [if_pos rfl]
    simp only [Bool.and_eq_true] at hg
    apply wf_setCol _ _ _ _ hwf
    rw [safe_div_length, List.length_zipWith, List.length_zipWith,
      colD_length t _ n hwf hg.1.1, colD_length t _ n hwf hg.1.2,
      colD_length t _ n hwf hg.2, Nat.min_self, Nat.min_self, Nat.min_self]

theorem rule_avg_delay_skip (t : Table)
    (h : (hasCol t "arr_delay" && hasCol t "arr_del15") = false) :
    rule_avg_delay t = t := by
  unfold rule_avg_delay
  rw [h, if_neg Bool.false_ne_true]

theorem getCol_rule_avg_delay (t : Table) (d : String)
    (hd : d ≠ "avg_delay_min_per_delayed_flight") :
    getCol (rule_avg_delay t) d = getCol t d := by
  unfold rule_avg_delay
  cases hg : (hasCol t "arr_delay" && hasCol t "arr_del15") with
  | false => rw [if_neg Bool.false_ne_true]
  | true =>
    rw [if_pos rfl]
    exact getCol_setCol_ne _ _ _ _ hd

theorem wf_rule_avg_delay (t : Table) (n : Nat) (hwf : wf t n) :
    wf (rule_avg_delay t) n := by
  unfold rule_avg_delay
  cases hg : (hasCol t "arr_delay" && hasCol t "arr_del15") with
  | false =>
    rw [if_neg Bool.false_ne_true]
    exact hwf
  | true =>
    rw [if_pos rfl]
    simp only [Bool.and_eq_true] at hg
    apply wf_setCol _ _ _ _ hwf
    rw [safe_div_length, colD_length t _ n hwf hg.1, colD_length t _ n hwf hg.2,
      Nat.min_self]

theorem rule_share_ct_skip (t : Table) (cause : String)
    (h : (hasCol t "arr_del15" && hasCol t (cause ++ "_ct")) = false) :
    rule_share_ct t cause = t := by
  unfold rule_share_ct
  rw [h, if_neg Bool.false_ne_true]

theorem getCol_rule_share_ct (t : Table) (cause d : String)
    (hd : d ≠ cause ++ "_cause_share_ct") :
    getCol (rule_share_ct t cause) d = getCol t d := by
  unfold rule_share_ct
  cases hg : (hasCol t "arr_del15" && hasCol t (cause ++ "_ct")) with
  | false => rw [if_neg Bool.false_ne_true]
  | true =>
    rw [if_pos rfl]
    exact getCol_setCol_ne _ _ _ _ hd

theorem wf_rule_share_ct (t : Table) (cause : String) (n : Nat) (hwf : wf t n) :
    wf (rule_share_ct t cause) n := by
  unfold rule_share_ct
  cases hg : (hasCol t "arr_del15" && hasCol t (cause ++ "_ct")) with
  | false =>
    rw [if_neg Bool.false_ne_true]
    exact hwf
  | true =>
    rw [if_pos rfl]
    simp only [Bool.and_eq_true] at hg
    apply wf_setCol _ _ _ _ hwf
    rw [safe_div_length, colD_length t _ n hwf hg.2, colD_length t _ n hwf hg.1,
      Nat.min_self]

theorem rule_share_min_skip (t : Table) (cause : String)
    (h : (hasCol t "arr_delay" && hasCol t (cause ++ "_delay")) = false) :
    rule_share_min t cause = t := by
  unfold rule_share_min
  rw [h, if_neg Bool.false_ne_true]

theorem getCol_rule_share_min (t : Table) (cause d : String)
    (hd : d ≠ cause ++ "_cause_share_min") :
    getCol (rule_share_min t cause) d = getCol t d := by
  unfold rule_share_min
  cases hg : (hasCol t "arr_delay" && hasCol t (cause ++ "_delay")) with
  | false => rw [if_neg Bool.false_ne_true]
  | true =>
    rw [if_pos rfl]
    exact getCol_setCol_ne _ _ _ _ hd

theorem wf_rule_share_min (t : Table) (cause : String) (n : Nat) (hwf : wf t n) :
    wf (rule_share_min t cause) n := by
  unfold rule_share_min
  cases hg : (hasCol t "arr_delay" && hasCol t (cause ++ "_delay")) with
  | false =>
    rw [if_neg Bool.false_ne_true]
    exact hwf
  | true =>
    rw [if_pos rfl]
    simp only [Bool.and_eq_true] at hg
    apply wf_setCol _ _ _ _ hwf
    rw [safe_div_length, colD_length t _ n hwf hg.2, colD_length t _ n hwf hg.1,
      Nat.min_self]

theorem getCol_foldl_share_ct (cs : List String) (t : Table) (d : String)
    (hd : ∀ c ∈ cs, d ≠ c ++ "_cause_share_ct") :
    getCol (cs.foldl rule_share_ct t) d = getCol t d := by
  induction cs generalizing t with
  | nil => rfl
  | cons c cs ih =>
    rw [List.foldl_cons,
      ih (rule_share_ct t c) (fun x hx => hd x (List.mem_cons_of_mem c hx))]
    exact getCol_rule_share_ct t c d (hd c (List.mem_cons_self _ _))

theorem getCol_foldl_share_min (cs : List String) (t : Table) (d : String)
    (hd : ∀ c ∈ cs, d ≠ c ++ "_cause_share_min") :
    getCol (cs.foldl rule_share_min t) d = getCol t d := by
  induction cs generalizing t with
  | nil => rfl
  | cons c cs ih =>
    rw [List.foldl_cons,
      ih (rule_share_min t c) (fun x hx => hd x (List.mem_cons_of_mem c hx))]
    exact getCol_rule_share_min t c d (hd c (List.mem_cons_self _ _))

theorem wf_foldl_share_ct (cs : List String) (t : Table) (n : Nat) (hwf : wf t n) :
    wf (cs.foldl rule_share_ct t) n := by
  induction cs generalizing t with
  | nil => exact hwf
  | cons c cs ih =>
    rw [List.foldl_cons]
    exact ih _ (wf_rule_share_ct t c n hwf)

theorem wf_foldl_share_min (cs : List String) (t : Table) (n : Nat) (hwf : wf t n) :
    wf (cs.foldl rule_share_min t) n := by
  induction cs generalizing t with
  | nil => exact hwf
  | cons c cs ih =>
    rw [List.foldl_cons]
    exact ih _ (wf_rule_share_min t c n hwf)

theorem kpiPass_ok_inv (t t2 : Table) (h : kpiPass t = Except.ok t2) :
    ∃ t1, rule_year_month t = Except.ok t1 ∧
      t2 = causes.foldl rule_share_min
        (causes.foldl rule_share_ct
          (rule_avg_delay (rule_cancellation_rate (rule_delayed_rate t1)))) := by
  unfold kpiPass at h
  cases hym : rule_year_month t with
  | error e =>
    rw [hym] at h
    have h2 : (Except.error e : Except String Table) = Except.ok t2 := h
    cases h2
  | ok t1 =>
    rw [hym] at h
    have h2 : Except.ok (causes.foldl rule_share_min
        (causes.foldl rule_share_ct
          (rule_avg_delay (rule_cancellation_rate (rule_delayed_rate t1))))) =
        Except.ok t2 := h
    injection h2 with h3
    exact ⟨t1, rfl, h3.symm⟩

theorem qualityPass_skip (t : Table)
    (h : quality_req.all (fun c => hasCol t c) = false) :
    qualityPass t = (t, none) := by
  unfold qualityPass
  rw [h, if_neg Bool.false_ne_true]

theorem getCol_qualityPass (t : Table) (d : String)
    (hd : d ≠ "cause_counts_exceed_delayed_flag") :
    getCol (qualityPass t).1 d = getCol t d := by
  unfold qualityPass
  cases hg : quality_req.all (fun c => hasCol t c) with
  | false => rw [if_neg Bool.false_ne_true]
  | true =>
    rw [if_pos rfl]
    exact getCol_setCol_ne _ _ _ _ hd

theorem wf_qualityPass (t : Table) (n : Nat) (hwf : wf t n) :
    wf (qualityPass t).1 n := by
  unfold qualityPass
  cases hg : quality_req.all (fun c => hasCol t c) with
  | false =>
    rw [if_neg Bool.false_ne_true]
    exact hwf
  | true =>
    rw [if_pos rfl]
    apply wf_setCol _ _ _ _ hwf
    rw [List.length_map, List.length_map, List.length_range]
    have hdel : hasCol t "arr_del15" = true := by
      have := List.all_eq_true.mp hg "arr_del15" (by decide)
      exact this
    exact nrows_of_wf t n hwf _ hdel

/-! ## Claim C6: KPI rules are skipped when sources are missing -/

/-- C6, counterexample: the claim "the derived column is absent from the
output table" fails when the input table already carries a column with a
derived name.  Here the input has a `delayed_rate` column but no
`arr_del15`/`arr_flights`; every rule is skipped, so the output still
contains `delayed_rate`. -/
theorem kpi_skip_cex :
    hasCol [("delayed_rate", [Val.num 7])] "arr_del15" = false ∧
    hasCol [("delayed_rate", [Val.num 7])] "arr_flights" = false ∧
    ∃ t2, kpiPass [("delayed_rate", [Val.num 7])] = Except.ok t2 ∧
      hasCol t2 "delayed_rate" = true :=
  ⟨rfl, rfl, [("delayed_rate", [Val.num 7])], rfl, rfl⟩

/-- C6, amended: whenever any source column required by a derivation
rule is absent, that rule returns its input table unchanged — so it
raises no error, produces no column, and the derived column is absent
from the output whenever it is absent from the input. -/
theorem kpiDeriver_skips_on_missing_sources (t : Table) :
    ((hasCol t "year" && hasCol t "month") = false →
      rule_year_month t = Except.ok t) ∧
    ((hasCol t "arr_del15" && hasCol t "arr_flights") = false →
      rule_delayed_rate t = t) ∧
    ((hasCol t "arr_flights" && hasCol t "arr_cancelled" &&
        hasCol t "arr_diverted") = false →
      rule_cancellation_rate t = t) ∧
    ((hasCol t "arr_delay" && hasCol t "arr_del15") = false →
      rule_avg_delay t = t) ∧
    (∀ cause ∈ causes,
      ((hasCol t "arr_del15" && hasCol t (cause ++ "_ct")) = false →
        rule_share_ct t cause = t) ∧
      ((hasCol t "arr_delay" && hasCol t (cause ++ "_delay")) = false →
        rule_share_min t cause = t)) :=
  ⟨rule_year_month_skip t, rule_delayed_rate_skip t, rule_cancellation_rate_skip t,
   rule_avg_delay_skip t,
   fun cause _ => ⟨rule_share_ct_skip t cause, rule_share_min_skip t cause⟩⟩

/-- Witness for the amended C6 at a concrete one-column table missing
every source column. -/
theorem kpiDeriver_skips_witness :
    rule_year_month [("airport", [Val.num 1])] = Except.ok [("airport", [Val.num 1])] ∧
    rule_delayed_rate [("airport", [Val.num 1])] = [("airport", [Val.num 1])] ∧
    rule_cancellation_rate [("airport", [Val.num 1])] = [("airport", [Val.num 1])] ∧
    rule_avg_delay [("airport", [Val.num 1])] = [("airport", [Val.num 1])] ∧
    rule_share_ct [("airport", [Val.num 1])] "carrier" = [("airport", [Val.num 1])] ∧
    rule_share_min [("airport", [Val.num 1])] "carrier" = [("airport", [Val.num 1])] := by
  have h := kpiDeriver_skips_on_missing_sources [("airport", [Val.num 1])]
  exact ⟨h.1 rfl, h.2.1 rfl, h.2.2.1 rfl, h.2.2.2.1 rfl,
    (h.2.2.2.2 "carrier" (List.mem_cons_self _ _)).1 rfl,
    (h.2.2.2.2 "carrier" (List.mem_cons_self _ _)).2 rfl⟩

/-! ## Claim C10: the passes only write derived columns -/

/-- C10, counterexample: a pre-existing column named `delayed_rate` is
overwritten by the KPI pass, so "the values of all columns that existed
before the pass are unchanged" fails on such an input. -/
theorem kpi_frame_cex :
    ∃ t2, kpiPass [("arr_del15", [Val.num 1]), ("arr_flights", [Val.num 0]),
        ("delayed_rate", [Val.num 99])] = Except.ok t2 ∧
      getCol t2 "delayed_rate" ≠
        getCol [("arr_del15", [Val.num 1]), ("arr_flights", [Val.num 0]),
          ("delayed_rate", [Val.num 99])] "delayed_rate" :=
  ⟨[("arr_del15", [Val.num 1]), ("arr_flights", [Val.num 0]),
    ("delayed_rate", [Val.nan])], rfl, by decide⟩

/-- C10, amended: the KPI pass followed by the quality pass leaves every
column whose name is not one of the derived-column names untouched, and
preserves the row count of a well-formed table (row order is untouched
as well, since surviving columns are unchanged). -/
theorem kpi_quality_frame (t t2 : Table) (n : Nat) (hwf : wf t n)
    (h : kpiPass t = Except.ok t2) (d : String) (hd : d ∉ derivedNames) :
    getCol (qualityPass t2).1 d = getCol t d ∧ wf (qualityPass t2).1 n := by
  have hne : ∀ x ∈ derivedNames, d ≠ x := fun x hx he => hd (he ▸ hx)
  have h1 : d ≠ "year_month" := hne _ (by decide)
  have h2 : d ≠ "year_month_key" := hne _ (by decide)
  have h3 : d ≠ "delayed_rate" := hne _ (by decide)
  have h4 : d ≠ "cancellation_rate" := hne _ (by decide)
  have h5 : d ≠ "avg_delay_min_per_delayed_flight" := hne _ (by decide)
  have h6 : d ≠ "cause_counts_exceed_delayed_flag" := hne _ (by decide)
  have hct : ∀ c ∈ causes, d ≠ c ++ "_cause_share_ct" := by
    intro c hc
    simp only [causes, List.mem_cons, List.not_mem_nil, or_false] at hc
    rcases hc with rfl | rfl | rfl | rfl | rfl <;> exact hne _ (by decide)
  have hmn : ∀ c ∈ causes, d ≠ c ++ "_cause_share_min" := by
    intro c hc
    simp only [causes, List.mem_cons, List.not_mem_nil, or_false] at hc
    rcases hc with rfl | rfl | rfl | rfl | rfl <;> exact hne _ (by decide)
  obtain ⟨t1, hym, ht2⟩ := kpiPass_ok_inv t t2 h
  rw [ht2]
  constructor
  · rw [getCol_qualityPass _ _ h6,
      getCol_foldl_share_min causes _ d hmn,
      getCol_foldl_share_ct causes _ d hct,
      getCol_rule_avg_delay _ _ h5,
      getCol_rule_cancellation_rate _ _ h4,
      getCol_rule_delayed_rate _ _ h3]
    exact getCol_rule_year_month t t1 hym d h1 h2
  · apply wf_qualityPass
    apply wf_foldl_share_min
    apply wf_foldl_share_ct
    apply wf_rule_avg_delay
    apply wf_rule_cancellation_rate
    apply wf_rule_delayed_rate
    exact wf_rule_year_month t t1 n hwf hym

/-- Witness for the amended C10 at a one-column table the passes do not
touch. -/
theorem kpi_quality_frame_witness :
    getCol (qualityPass [("airport", [Val.num 5])]).1 "airport" =
      getCol [("airport", [Val.num 5])] "airport" ∧
    wf (qualityPass [("airport", [Val.num 5])]).1 1 :=
  kpi_quality_frame [("airport", [Val.num 5])] [("airport", [Val.num 5])] 1
    (fun p hp => by rcases List.mem_singleton.mp hp with rfl; rfl)
    rfl "airport" (by decide)

/-! ## Claim C2: the cancellation-rate denominator -/

theorem getElem_zipWith_some {α β γ : Type} (f : α → β → γ) (a : List α) (b : List β)
    (i : Nat) (x : α) (y : β) (ha : a[i]? = some x) (hb : b[i]? = some y) :
    (List.zipWith f a b)[i]? = some (f x y) := by
  rw [List.getElem?_zipWith, ha, hb]

/-- C2: whenever `arr_flights`, `arr_cancelled` and `arr_diverted` are
all present, the KPI pass produces a `cancellation_rate` column whose
entry at each row is SafeRatio of the cancelled count against the
row-wise sum `arr_flights + arr_cancelled + arr_diverted` — NaN when
that sum is zero, the quotient otherwise. -/
theorem cancellation_rate_correct (t t2 : Table) (h : kpiPass t = Except.ok t2)
    (hf : hasCol t "arr_flights" = true) (hc : hasCol t "arr_cancelled" = true)
    (hdv : hasCol t "arr_diverted" = true) (i : Nat) (f c d : ℚ)
    (hfi : (colD t "arr_flights")[i]? = some (Val.num f))
    (hci : (colD t "arr_cancelled")[i]? = some (Val.num c))
    (hdi : (colD t "arr_diverted")[i]? = some (Val.num d)) :
    ∃ rc, getCol t2 "cancellation_rate" = some rc ∧
      rc[i]? = some (if f + c + d = 0 then Val.nan
        else Val.num (c / (f + c + d))) := by
  obtain ⟨t1, hym, ht2⟩ := kpiPass_ok_inv t t2 h
  have gf : getCol t1 "arr_flights" = getCol t "arr_flights" :=
    getCol_rule_year_month t t1 hym _ (by decide) (by decide)
  have gc : getCol t1 "arr_cancelled" = getCol t "arr_cancelled" :=
    getCol_rule_year_month t t1 hym _ (by decide) (by decide)
  have gd : getCol t1 "arr_diverted" = getCol t "arr_diverted" :=
    getCol_rule_year_month t t1 hym _ (by decide) (by decide)
  have gf2 : getCol (rule_delayed_rate t1) "arr_flights" = getCol t "arr_flights" := by
    rw [getCol_rule_delayed_rate _ _ (by decide), gf]
  have gc2 : getCol (rule_delayed_rate t1) "arr_cancelled" = getCol t "arr_cancelled" := by
    rw [getCol_rule_delayed_rate _ _ (by decide), gc]
  have gd2 : getCol (rule_delayed_rate t1) "arr_diverted" = getCol t "arr_diverted" := by
    rw [getCol_rule_delayed_rate _ _ (by decide), gd]
  have hguard : (hasCol (rule_delayed_rate t1) "arr_flights" &&
      hasCol (rule_delayed_rate t1) "arr_cancelled" &&
      hasCol (rule_delayed_rate t1) "arr_diverted") = true := by
    unfold hasCol
    rw [gf2, gc2, gd2]
    unfold hasCol at hf hc hdv
    rw [hf, hc, hdv]
    rfl
  have hcr : getCol (rule_cancellation_rate (rule_delayed_rate t1)) "cancellation_rate" =
      some (safe_div (colD (rule_delayed_rate t1) "arr_cancelled")
        (List.zipWith addCell
          (List.zipWith addCell (colD (rule_delayed_rate t1) "arr_flights")
            (colD (rule_delayed_rate t1) "arr_cancelled"))
          (colD (rule_delayed_rate t1) "arr_diverted"))) := by
    unfold rule_cancellation_rate
    rw [hguard, if_pos rfl]
    exact getCol_setCol_self _ _ _
  have hfinal : getCol t2 "cancellation_rate" =
      getCol (rule_cancellation_rate (rule_delayed_rate t1)) "cancellation_rate" := by
    rw [ht2,
      getCol_foldl_share_min causes _ _ (by decide),
      getCol_foldl_share_ct causes _ _ (by decide),
      getCol_rule_avg_delay _ _ (by decide)]
  have hcd : colD (rule_delayed_rate t1) "arr_cancelled" = colD t "arr_cancelled" := by
    unfold colD
    rw [gc2]
  have hfd : colD (rule_delayed_rate t1) "arr_flights" = colD t "arr_flights" := by
    unfold colD
    rw [gf2]
  have hdd : colD (rule_delayed_rate t1) "arr_diverted" = colD t "arr_diverted" := by
    unfold colD
    rw [gd2]
  refine ⟨_, by rw [hfinal, hcr], ?_⟩
  rw [hcd, hfd, hdd]
  have hden : (List.zipWith addCell
      (List.zipWith addCell (colD t "arr_flights") (colD t "arr_cancelled"))
      (colD t "arr_diverted"))[i]? = some (Val.num (f + c + d)) :=
    getElem_zipWith_some addCell _ _ i _ _
      (getElem_zipWith_some addCell _ _ i _ _ hfi hci) hdi
  have hsd : (safe_div (colD t "arr_cancelled")
      (List.zipWith addCell
        (List.zipWith addCell (colD t "arr_flights") (colD t "arr_cancelled"))
        (colD t "arr_diverted")))[i]? =
      some (safeDivCell (Val.num c) (Val.num (f + c + d))) :=
    getElem_zipWith_some safeDivCell _ _ i _ _ hci hden
  rw [hsd]
  by_cases hz : f + c + d = 0
  · simp [safeDivCell, astypeFloatCell, hz]
  · simp [safeDivCell, astypeFloatCell, hz]

/-- Witness for C2 at the single-row table of the end-to-end scenario
(100 flights, 5 cancelled, 0 diverted: rate 5/105). -/
theorem cancellation_rate_witness :
    ∃ rc, getCol [("arr_flights", [Val.num 100]), ("arr_cancelled", [Val.num 5]),
        ("arr_diverted", [Val.num 0]),
        ("cancellation_rate", [safeDivCell (Val.num 5) (Val.num (100 + 5 + 0))])]
        "cancellation_rate" = some rc ∧
      rc[0]? = some (if (100 : ℚ) + 5 + 0 = 0 then Val.nan
        else Val.num (5 / (100 + 5 + 0))) :=
  cancellation_rate_correct
    [("arr_flights", [Val.num 100]), ("arr_cancelled", [Val.num 5]),
     ("arr_diverted", [Val.num 0])]
    [("arr_flights", [Val.num 100]), ("arr_cancelled", [Val.num 5]),
     ("arr_diverted", [Val.num 0]),
     ("cancellation_rate", [safeDivCell (Val.num 5) (Val.num (100 + 5 + 0))])]
    rfl rfl rfl rfl 0 100 5 0 rfl rfl rfl

/-! ## Claim C5: the quality-check count and flag -/

theorem count_true_map (f : Nat → Bool) (l : List Nat) :
    (l.map f).count true = (l.filter f).length := by
  rw [List.count_eq_countP, List.countP_map, List.countP_eq_length_filter]
  congr 1
  apply List.filter_congr
  intro a _
  simp [Function.comp]

/-- C5: when the five cause-count columns and `arr_del15` are present
(as numeric columns of a well-formed table), the reported count is
exactly the number of rows whose cause-count sum strictly exceeds
`arr_del15` — a row where the sum merely equals `arr_del15` is not
flagged — and the boolean flag column is true on exactly those rows. -/
theorem quality_check_correct (t : Table) (n : Nat) (hwf : wf t n)
    (l1 l2 l3 l4 l5 ld : List ℚ)
    (h1 : getCol t "carrier_ct" = some (l1.map Val.num))
    (h2 : getCol t "weather_ct" = some (l2.map Val.num))
    (h3 : getCol t "nas_ct" = some (l3.map Val.num))
    (h4 : getCol t "security_ct" = some (l4.map Val.num))
    (h5 : getCol t "late_aircraft_ct" = some (l5.map Val.num))
    (hd : getCol t "arr_del15" = some (ld.map Val.num)) :
    (qualityPass t).2 = some ((List.range n).filter (fun i =>
      decide (ld.getD i 0 < l1.getD i 0 + l2.getD i 0 + l3.getD i 0 +
        l4.getD i 0 + l5.getD i 0))).length ∧
    ∃ fl, getCol (qualityPass t).1 "cause_counts_exceed_delayed_flag" = some fl ∧
      ∀ i, i < n → fl[i]? = some (Val.bool (decide (ld.getD i 0 <
        l1.getD i 0 + l2.getD i 0 + l3.getD i 0 + l4.getD i 0 + l5.getD i 0))) := by
  have hlen : ∀ (c : String) (l : List ℚ), getCol t c = some (l.map Val.num) →
      l.length = n := by
    intro c l hgc
    rcases getCol_some_mem t c _ hgc with ⟨p, hp, _, hp2⟩
    have hpl := hwf p hp
    rw [hp2, List.length_map] at hpl
    exact hpl
  have e1 := hlen _ _ h1
  have e2 := hlen _ _ h2
  have e3 := hlen _ _ h3
  have e4 := hlen _ _ h4
  have e5 := hlen _ _ h5
  have ed := hlen _ _ hd
  have hcarr : hasCol t "carrier_ct" = true := by
    unfold hasCol
    rw [h1]
    rfl
  have hn : nrows t = n := nrows_of_wf t n hwf "carrier_ct" hcarr
  have hmapD : ∀ (l : List ℚ), l.length = n → ∀ i, i < n →
      (l.map Val.num).getD i Val.nan = Val.num (l.getD i 0) := by
    intro l hl i hi
    have hil : i < l.length := by omega
    have him : i < (l.map Val.num).length := by
      rw [List.length_map]
      omega
    rw [List.getD_eq_getElem _ _ him, List.getElem_map, List.getD_eq_getElem _ _ hil]
  have hsum : ∀ i, i < n → causeSumAt t i =
      l1.getD i 0 + l2.getD i 0 + l3.getD i 0 + l4.getD i 0 + l5.getD i 0 := by
    intro i hi
    unfold causeSumAt colD
    simp only [List.map_cons, List.map_nil, List.sum_cons, List.sum_nil]
    rw [h1, h2, h3, h4, h5]
    simp only [Option.getD_some]
    rw [hmapD l1 e1 i hi, hmapD l2 e2 i hi, hmapD l3 e3 i hi, hmapD l4 e4 i hi,
      hmapD l5 e5 i hi]
    unfold cellSkipNa astypeFloatCell
    simp only [Option.getD_some]
    ring
  have hflag : ∀ i, i < n →
      gtCell (causeSumAt t i) ((colD t "arr_del15").getD i Val.nan) =
      decide (ld.getD i 0 < l1.getD i 0 + l2.getD i 0 + l3.getD i 0 +
        l4.getD i 0 + l5.getD i 0) := by
    intro i hi
    unfold colD
    rw [hd]
    simp only [Option.getD_some]
    rw [hmapD ld ed i hi, hsum i hi]
    rfl
  have hguard : quality_req.all (fun c => hasCol t c) = true := by
    unfold quality_req
    simp only [List.all_cons, List.all_nil]
    unfold hasCol
    rw [h1, h2, h3, h4, h5, hd]
    rfl
  have hflags : (List.range (nrows t)).map
      (fun i => gtCell (causeSumAt t i) ((colD t "arr_del15").getD i Val.nan)) =
      (List.range n).map (fun i => decide (ld.getD i 0 < l1.getD i 0 +
        l2.getD i 0 + l3.getD i 0 + l4.getD i 0 + l5.getD i 0)) := by
    rw [hn]
    exact List.map_congr_left (fun i hi => hflag i (List.mem_range.mp hi))
  have hqp : qualityPass t =
      (setCol t "cause_counts_exceed_delayed_flag"
        (((List.range (nrows t)).map
          (fun i => gtCell (causeSumAt t i)
            ((colD t "arr_del15").getD i Val.nan))).map Val.bool),
       some (((List.range (nrows t)).map
          (fun i => gtCell (causeSumAt t i)
            ((colD t "arr_del15").getD i Val.nan))).count true)) := by
    unfold qualityPass
    rw [hguard, if_pos rfl]
  rw [hqp]
  constructor
  · show some ((((List.range (nrows t)).map
      (fun i => gtCell (causeSumAt t i)
        ((colD t "arr_del15").getD i Val.nan))).count true)) = _
    rw [hflags, count_true_map]
  · refine ⟨_, getCol_setCol_self _ _ _, ?_⟩
    intro i hi
    rw [hflags, List.getElem?_map, List.getElem?_map, List.getElem?_range hi]
    rfl

/-- Witness for C5 at a two-row table: the first row has cause-count
sum equal to `arr_del15` (not flagged), the second strictly exceeds it
(flagged). -/
theorem quality_check_witness :
    (qualityPass [("carrier_ct", [Val.num 1, Val.num 4]),
      ("weather_ct", [Val.num 0, Val.num 0]),
      ("nas_ct", [Val.num 0, Val.num 0]),
      ("security_ct", [Val.num 0, Val.num 0]),
      ("late_aircraft_ct", [Val.num 0, Val.num 0]),
      ("arr_del15", [Val.num 1, Val.num 2])]).2 =
      some ((List.range 2).filter (fun i =>
        decide (([(1 : ℚ), 2].getD i 0) < ([(1 : ℚ), 4].getD i 0) +
          ([(0 : ℚ), 0].getD i 0) + ([(0 : ℚ), 0].getD i 0) +
          ([(0 : ℚ), 0].getD i 0) + ([(0 : ℚ), 0].getD i 0)))).length ∧
    ∃ fl, getCol (qualityPass [("carrier_ct", [Val.num 1, Val.num 4]),
      ("weather_ct", [Val.num 0, Val.num 0]),
      ("nas_ct", [Val.num 0, Val.num 0]),
      ("security_ct", [Val.num 0, Val.num 0]),
      ("late_aircraft_ct", [Val.num 0, Val.num 0]),
      ("arr_del15", [Val.num 1, Val.num 2])]).1
        "cause_counts_exceed_delayed_flag" = some fl ∧
      ∀ i, i < 2 → fl[i]? = some (Val.bool (decide (([(1 : ℚ), 2].getD i 0) <
        ([(1 : ℚ), 4].getD i 0) + ([(0 : ℚ), 0].getD i 0) +
        ([(0 : ℚ), 0].getD i 0) + ([(0 : ℚ), 0].getD i 0) +
        ([(0 : ℚ), 0].getD i 0)))) :=
  quality_check_correct
    [("carrier_ct", [Val.num 1, Val.num 4]),
     ("weather_ct", [Val.num 0, Val.num 0]),
     ("nas_ct", [Val.num 0, Val.num 0]),
     ("security_ct", [Val.num 0, Val.num 0]),
     ("late_aircraft_ct", [Val.num 0, Val.num 0]),
     ("arr_del15", [Val.num 1, Val.num 2])] 2
    (by intro p hp
        simp only [List.mem_cons, List.not_mem_nil, or_false] at hp
        rcases hp with rfl | rfl | rfl | rfl | rfl | rfl <;> rfl)
    [1, 4] [0, 0] [0, 0] [0, 0] [0, 0] [1, 2] rfl rfl rfl rfl rfl rfl

/-! ## Claim C7: TypeCoercer leaves designated columns numeric -/

theorem coerceCounts_fold_frame (cols : List String) (t : Table) (c : String)
    (hc : c ∉ cols) :
    getCol (cols.foldl (fun a c => if hasCol a c then
      setCol a c ((colD a c).map coerceCnt) else a) t) c = getCol t c := by
  induction cols generalizing t with
  | nil => rfl
  | cons x xs ih =>
    rw [List.foldl_cons]
    have hx : c ≠ x := fun he => hc (he ▸ List.mem_cons_self x xs)
    have hxs : c ∉ xs := fun hm => hc (List.mem_cons_of_mem x hm)
    rw [ih _ hxs]
    cases hb : hasCol t x with
    | false => rw [if_neg Bool.false_ne_true]
    | true =>
      rw [if_pos rfl]
      exact getCol_setCol_ne _ _ _ _ hx

theorem coerceCounts_fold_get (cols : List String) (t : Table) (c : String)
    (hc : c ∈ cols) (hnd : cols.Nodup) :
    getCol (cols.foldl (fun a c => if hasCol a c then
      setCol a c ((colD a c).map coerceCnt) else a) t) c =
      (getCol t c).map (fun l => l.map coerceCnt) := by
  induction cols generalizing t with
  | nil => cases hc
  | cons x xs ih =>
    rw [List.foldl_cons]
    rcases List.mem_cons.mp hc with rfl | hmem
    · have hnx : c ∉ xs := (List.nodup_cons.mp hnd).1
      rw [coerceCounts_fold_frame xs _ c hnx]
      cases hb : hasCol t c with
      | false =>
        rw [if_neg Bool.false_ne_true]
        unfold hasCol at hb
        cases hg : getCol t c with
        | none => rfl
        | some l =>
          rw [hg] at hb
          cases hb
      | true =>
        rw [if_pos rfl, getCol_setCol_self]
        unfold hasCol at hb
        cases hg : getCol t c with
        | none =>
          rw [hg] at hb
          cases hb
        | some l =>
          unfold colD
          rw [hg]
          rfl
    · have hnd2 : xs.Nodup := (List.nodup_cons.mp hnd).2
      rw [ih _ hmem hnd2]
      cases hb : hasCol t x with
      | false => rw [if_neg Bool.false_ne_true]
      | true =>
        rw [if_pos rfl]
        have hcx : c ≠ x := by
          intro he
          subst he
          exact (List.nodup_cons.mp hnd).1 hmem
        rw [getCol_setCol_ne _ _ _ _ hcx]

theorem coerceYMOne_ok_frame (t t2 : Table) (c d : String)
    (h : coerceYMOne t c = Except.ok t2) (hd : d ≠ c) :
    getCol t2 d = getCol t d := by
  unfold coerceYMOne at h
  cases hb : hasCol t c with
  | false =>
    rw [hb, if_neg Bool.false_ne_true] at h
    have h2 : (Except.ok t : Except String Table) = Except.ok t2 := h
    injection h2 with h3
    rw [← h3]
  | true =>
    rw [hb, if_pos rfl] at h
    cases hcol : coerceInt64Col (colD t c) with
    | error e =>
      rw [hcol] at h
      have h2 : (Except.error e : Except String Table) = Except.ok t2 := h
      cases h2
    | ok col =>
      rw [hcol] at h
      have h2 : (Except.ok (setCol t c col) : Except String Table) = Except.ok t2 := h
      injection h2 with h3
      rw [← h3]
      exact getCol_setCol_ne _ _ _ _ hd

theorem coerceYM_ok_frame (t t2 : Table) (d : String)
    (h : coerceYM t = Except.ok t2) (hy : d ≠ "year") (hm : d ≠ "month") :
    getCol t2 d = getCol t d := by
  unfold coerceYM at h
  cases h1 : coerceYMOne t "year" with
  | error e =>
    rw [h1] at h
    have h2 : (Except.error e : Except String Table) = Except.ok t2 := h
    cases h2
  | ok ta =>
    rw [h1] at h
    have h2 : coerceYMOne ta "month" = Except.ok t2 := h
    rw [coerceYMOne_ok_frame ta t2 _ d h2 hm, coerceYMOne_ok_frame t ta _ d h1 hy]

/-- C7: after the type-coercion stage succeeds, every designated
count/delay column that was present holds exactly the numeric coercion
of its old cells — every cell is a number, and every cell that was
unparseable or missing has become exactly zero. -/
theorem typeCoercer_counts (t t2 : Table) (h : typeCoerce t = Except.ok t2)
    (c : String) (hc : c ∈ count_cols ++ delay_min_cols) (l : List Val)
    (hl : getCol t c = some l) :
    getCol t2 c = some (l.map coerceCnt) ∧
    (∀ v ∈ l.map coerceCnt, ∃ q, v = Val.num q) ∧
    (∀ (i : Nat) (v : Val), l[i]? = some v → parseCell v = none →
      (l.map coerceCnt)[i]? = some (Val.num 0)) := by
  have hney : ∀ x ∈ count_cols ++ delay_min_cols, x ≠ "year" ∧ x ≠ "month" := by decide
  unfold typeCoerce at h
  have hcc : getCol (coerceCounts t) c = some (l.map coerceCnt) := by
    unfold coerceCounts
    rw [coerceCounts_fold_get _ _ _ hc (by decide), hl]
    rfl
  refine ⟨?_, ?_, ?_⟩
  · rw [coerceYM_ok_frame _ _ _ h (hney c hc).1 (hney c hc).2]
    exact hcc
  · intro v hv
    rcases List.mem_map.mp hv with ⟨w, _, hw⟩
    exact ⟨(parseCell w).getD 0, hw ▸ rfl⟩
  · intro i v hiv hpv
    rw [List.getElem?_map, hiv]
    show some (coerceCnt v) = some (Val.num 0)
    unfold coerceCnt
    rw [hpv]
    rfl

/-- Witness for C7 at a one-column table with an unparseable string, a
missing value and a number. -/
theorem typeCoercer_counts_witness :
    getCol [("arr_flights", [Val.num 0, Val.num 0, Val.num 7])] "arr_flights" =
      some ([Val.str "abc", Val.nan, Val.num 7].map coerceCnt) ∧
    (∀ v ∈ [Val.str "abc", Val.nan, Val.num 7].map coerceCnt, ∃ q, v = Val.num q) ∧
    (∀ (i : Nat) (v : Val), [Val.str "abc", Val.nan, Val.num 7][i]? = some v →
      parseCell v = none →
      ([Val.str "abc", Val.nan, Val.num 7].map coerceCnt)[i]? = some (Val.num 0)) :=
  typeCoercer_counts [("arr_flights", [Val.str "abc", Val.nan, Val.num 7])]
    [("arr_flights", [Val.num 0, Val.num 0, Val.num 7])] rfl
    "arr_flights" (by decide) [Val.str "abc", Val.nan, Val.num 7] rfl

/-! ## Claim C4: the composite-date rule on unparseable year/month -/

/-- C4 evaluation: a year value that fails numeric parsing is kept as
an explicit missing value by the coercion stage (nullable Int64), but
the date rule then calls `astype("int")`, which raises on missing
values — so the pipeline aborts with an error instead of yielding an
undefined `year_month`. -/
theorem year_month_na_crash :
    typeCoerce (normalizeCols [("year", [Val.str "abc"]), ("month", [Val.num 1])]) =
      Except.ok [("year", [Val.nan]), ("month", [Val.num 1])] ∧
    rule_year_month [("year", [Val.nan]), ("month", [Val.num 1])] =
      Except.error "cannot convert non-finite values (NA or inf) to integer" ∧
    runPipeline 0 [("year", [Val.str "abc"]), ("month", [Val.num 1])] =
      Except.error "cannot convert non-finite values (NA or inf) to integer" :=
  ⟨rfl, rfl, rfl⟩

/-! ## Claim C8: sample size -/

theorem drawN_length (fuel : Nat) : ∀ (state : Nat) (pool : List Nat),
    (drawN fuel state pool).length = min fuel pool.length := by
  induction fuel with
  | zero =>
    intro state pool
    cases pool with
    | nil =>
      show ([] : List Nat).length = min 0 ([] : List Nat).length
      simp
    | cons p ps =>
      show ([] : List Nat).length = min 0 (p :: ps).length
      simp
  | succ f ih =>
    intro state pool
    cases pool with
    | nil =>
      show ([] : List Nat).length = min (f + 1) ([] : List Nat).length
      simp
    | cons p ps =>
      have hdef : drawN (f + 1) state (p :: ps) =
          (p :: ps).getD (lcg state % (p :: ps).length) 0 ::
            drawN f (lcg state) ((p :: ps).eraseIdx (lcg state % (p :: ps).length)) := rfl
      rw [hdef, List.length_cons, ih, List.length_eraseIdx]
      have hlt : lcg state % (p :: ps).length < (p :: ps).length :=
        Nat.mod_lt _ (by simp)
      rw [if_pos hlt]
      simp only [List.length_cons]
      omega

theorem drawN_mem (fuel : Nat) : ∀ (state : Nat) (pool : List Nat) (x : Nat),
    x ∈ drawN fuel state pool → x ∈ pool := by
  induction fuel with
  | zero =>
    intro state pool x hx
    cases pool with
    | nil =>
      have hx2 : x ∈ ([] : List Nat) := hx
      cases hx2
    | cons p ps =>
      have hx2 : x ∈ ([] : List Nat) := hx
      cases hx2
  | succ f ih =>
    intro state pool x hx
    cases pool with
    | nil =>
      have hx2 : x ∈ ([] : List Nat) := hx
      cases hx2
    | cons p ps =>
      have hdef : drawN (f + 1) state (p :: ps) =
          (p :: ps).getD (lcg state % (p :: ps).length) 0 ::
            drawN f (lcg state) ((p :: ps).eraseIdx (lcg state % (p :: ps).length)) := rfl
      rw [hdef] at hx
      rcases List.mem_cons.mp hx with h1 | h1
      · have hlt : lcg state % (p :: ps).length < (p :: ps).length :=
          Nat.mod_lt _ (by simp)
        rw [h1, List.getD_eq_getElem _ _ hlt]
        exact List.getElem_mem hlt
      · exact List.mem_of_mem_eraseIdx (ih _ _ _ h1)

theorem filterMap_getElem_length (col : List Val) (idx : List Nat)
    (h : ∀ i ∈ idx, i < col.length) :
    (idx.filterMap (fun i => col[i]?)).length = idx.length := by
  induction idx with
  | nil => rfl
  | cons i rest ih =>
    have hi : i < col.length := h i (List.mem_cons_self _ _)
    rw [List.filterMap_cons, List.getElem?_eq_getElem hi]
    show (col[i] :: rest.filterMap (fun j => col[j]?)).length = (i :: rest).length
    rw [List.length_cons, List.length_cons,
      ih (fun j hj => h j (List.mem_cons_of_mem i hj))]

/-- C8: for every input table, the sample artifact written by
`df.sample(min(len(df), 500), random_state=42)` has exactly
`min(len(df), 500)` rows. -/
theorem sample_size_correct (env : Nat) (t : Table) :
    nrows (sampleArtifact env t) = min (nrows t) 500 := by
  unfold sampleArtifact sampleTable
  cases t with
  | nil => rfl
  | cons p rest =>
    rw [List.map_cons]
    show ((sampleIdx 42 (nrows (p :: rest)) (min (nrows (p :: rest)) 500)).filterMap
      (fun i => p.2[i]?)).length = min (nrows (p :: rest)) 500
    have hperm : ∀ i ∈ sampleIdx 42 (nrows (p :: rest)) (min (nrows (p :: rest)) 500),
        i < p.2.length := by
      intro i hi
      unfold sampleIdx at hi
      have h2 := drawN_mem _ _ _ i ((List.take_sublist _ _).subset hi)
      exact List.mem_range.mp h2
    rw [filterMap_getElem_length p.2 _ hperm]
    unfold sampleIdx
    rw [List.length_take, drawN_length, List.length_range]
    have hpn : nrows (p :: rest) = p.2.length := rfl
    omega

/-! ## Claim C9: determinism -/

/-- C9: the pipeline is deterministic as a two-run property: the one
conceptually random step, the sample, is drawn with the fixed seed 42,
so the ambient random-generator state is never consulted and runs on
identical inputs produce identical cleaned, sample and dictionary
outputs. -/
theorem pipeline_deterministic (raw t : Table) (env1 env2 : Nat) :
    runPipeline env1 raw = runPipeline env2 raw ∧
    sampleArtifact env1 t = sampleArtifact env2 t :=
  ⟨rfl, rfl⟩

end AirlinePipeline
